import Mathlib

/-!
The reference loader and the annotator of match-ibcode (`main.go`).

A shallow embedding of `ExcelMatch.readExcel`, `ExcelMatch.match` and `main`.

* A Go `map[string]string` is an association list without repeated keys
  (`Cache`): `Cache.set` is `m[k] = v`, `Cache.get` is `m[k]` (the zero value
  `""` for an absent key) and `Cache.len` is `len(m)`.
* The spreadsheet library is an environment: a record says, for every call the
  code makes, whether it fails and what it yields.  The code's requests are
  collected in a trace of `Event`s.
* A run ends by returning, by a runtime panic or by `os.Exit`.
* File paths are sequences of bytes (`Bytes`); a byte is written as the
  character with the same code, so ASCII text is its own list of characters.
* `rowIndex` is a Go `int`; it is a natural number here (a sheet has far fewer
  than `2^63` rows).
-/

/-! ## Strings, errors, runs -/

/-- A Go string seen as its bytes, each byte written as the character with the same code. -/
abbrev Bytes := List Char

/-- A Go `error` value: `none` is `nil`. -/
abbrev GoError := Option String

/-- Log levels used by the program. -/
inductive Level where
  | debug
  | info
  | error
  deriving DecidableEq, Repr

/-- The two styles that `match` creates for a sheet. -/
inductive StyleKind where
  | fill
  | border
  deriving DecidableEq, Repr

/-- The requests the program makes to the spreadsheet library, the logger and the OS. -/
inductive Event where
  | openFile (path : Bytes)
  | getRows (sheet : String)
  | setActiveSheet (index : Nat)
  | insertCols (sheet col : String) (n : Nat)
  | setCellStr (sheet cell value : String)
  | newStyle (kind : StyleKind)
  | setCellStyle (sheet hCell vCell : String) (style : Nat)
  | rows (sheet : String)
  | saveAs (path : Bytes)
  | close
  | log (level : Level) (msg : String)
  | logInt (level : Level) (msg key : String) (val : Nat)
  deriving DecidableEq, Repr

/-- How a run ends. -/
inductive Outcome (α : Type) where
  | returned (val : α)
  | panicked
  | exited (code : Int)
  deriving DecidableEq, Repr

/-- A run: the requests made, in order, and how the run ended. -/
structure Run (α : Type) where
  trace : List Event
  outcome : Outcome α
  deriving DecidableEq, Repr

/-! ## The mapping `e.cache` -/

/-- A Go `map[string]string`: pairs of key and value, no key twice. -/
abbrev Cache := List (String × String)

/-- The assignment `m[k] = v`: overwrite the entry of `k`, or add one. -/
def Cache.set : Cache → String → String → Cache
  | [], k, v => [(k, v)]
  | (k', v') :: rest, k, v =>
    if k' = k then (k, v) :: rest else (k', v') :: Cache.set rest k v

/-- The two-valued lookup `v, ok := m[k]`. -/
def Cache.find? : Cache → String → Option String
  | [], _ => none
  | (k', v') :: rest, k => if k' = k then some v' else Cache.find? rest k

/-- The lookup `m[k]`: the empty string when `k` is not a key. -/
def Cache.get (m : Cache) (k : String) : String :=
  (Cache.find? m k).getD ""

/-- The builtin `len(m)`. -/
def Cache.len (m : Cache) : Nat := m.length

/-- The keys of the map. -/
def Cache.keys (m : Cache) : List String := m.map Prod.fst

/-! ## `ExcelMatch` and `readExcel` -/

/-- The receiver of the methods (`out` is never used by the program). -/
structure ExcelMatch where
  srcPath : Bytes
  objPath : Bytes
  out : Bytes
  cache : Cache
  deriving DecidableEq, Repr

/-- The function `newExcel`. -/
def newExcel (srcPath objPath : Bytes) : ExcelMatch :=
  { srcPath := srcPath, objPath := objPath, out := [], cache := [] }

/-- What the library answers when the reference workbook is opened and read:
`openErr` is the error of `excelize.OpenFile`, `getRows` the result of
`f.GetRows("汇总")` (an error, or the rows as lists of cells) and `closeErr`
tells whether `f.Close()` fails. -/
structure Source where
  openErr : GoError
  getRows : Except String (List (List String))
  closeErr : Bool

/-- The loop `for _, row := range rows { e.cache[row[6]] = row[7] }`; `none` is the
runtime panic of an index out of range. -/
def loadRows : List (List String) → Cache → Option Cache
  | [], c => some c
  | row :: rest, c =>
    match row[6]?, row[7]? with
    | some k, some v => loadRows rest (Cache.set c k v)
    | _, _ => none

/-- The deferred function of `readExcel`: close the workbook, log a failure. -/
def deferredClose (s : Source) : List Event :=
  Event.close :: (if s.closeErr then [Event.log Level.error "关闭文件失败"] else [])

/-- The method `ExcelMatch.readExcel`: the run, and the receiver when the run returns.
The value returned is the pair of the count and the error. The deferred close
runs on every exit after a successful open, a panic included. -/
def ExcelMatch.readExcel (e : ExcelMatch) (srcPath : Bytes) (s : Source) :
    Run (ExcelMatch × Nat × GoError) :=
  let e0 := { e with cache := [] }
  match s.openErr with
  | some _ =>
    { trace := [Event.openFile srcPath, Event.log Level.error "打开文件失败"],
      outcome := Outcome.panicked }
  | none =>
    match s.getRows with
    | Except.error err =>
      { trace := [Event.openFile srcPath, Event.getRows "汇总"] ++ deferredClose s,
        outcome := Outcome.returned (e0, 0, some ("读取行报错: " ++ err)) }
    | Except.ok rows =>
      match loadRows rows e0.cache with
      | none =>
        { trace := [Event.openFile srcPath, Event.getRows "汇总"] ++ deferredClose s,
          outcome := Outcome.panicked }
      | some c =>
        { trace := [Event.openFile srcPath, Event.getRows "汇总"] ++ deferredClose s,
          outcome := Outcome.returned ({ e0 with cache := c }, Cache.len c, none) }

/-! ## The package `path` of the Go standard library -/

namespace path

/-- The index of the last byte `c` of `s`, or `-1` (`bytealg.LastIndexByteString`). -/
def lastIndexByte : Bytes → Char → Int
  | [], _ => -1
  | b :: rest, c =>
    let j := lastIndexByte rest c
    if 0 ≤ j then j + 1 else if b = c then 0 else -1

/-- The function `path.Split`: `path[:i+1]` and `path[i+1:]`, `i` the last slash. -/
def Split (p : Bytes) : Bytes × Bytes :=
  let i := lastIndexByte p '/'
  (p.take (i + 1).toNat, p.drop (i + 1).toNat)

/-- The backtracking of `Clean` on a `..` element, from `w = out.w - 1`:
`for out.w > dotdot && out.index(out.w) != '/' { out.w-- }`. -/
def backtrack (out : Bytes) (dotdot : Nat) : Nat → Nat
  | 0 => 0
  | w + 1 => if dotdot < w + 1 ∧ out[w + 1]? ≠ some '/' then backtrack out dotdot w else w + 1

/-- The loop `for r < n` of `path.Clean`: `rest` is `path[r:]`, `out` the buffer
written so far, `dotdot` the index where `..` must stop.  Every turn reads at
least one byte, so `fuel = len(path)` turns are enough. -/
def cleanLoop (rooted : Bool) : Nat → Bytes → Bytes → Nat → Bytes
  | 0, _, out, _ => out
  | _ + 1, [], out, _ => out
  | fuel + 1, c :: rest, out, dotdot =>
    if c = '/' then
      -- empty path element
      cleanLoop rooted fuel rest out dotdot
    else if c = '.' ∧ (rest = [] ∨ rest.head? = some '/') then
      -- . element
      cleanLoop rooted fuel rest out dotdot
    else if c = '.' ∧ rest.head? = some '.' ∧
        (rest.tail = [] ∨ rest.tail.head? = some '/') then
      -- .. element: remove to last /
      if dotdot < out.length then
        cleanLoop rooted fuel rest.tail
          (out.take (backtrack out dotdot (out.length - 1))) dotdot
      else if rooted = false then
        let out1 := (if 0 < out.length then out ++ ['/'] else out) ++ ['.', '.']
        cleanLoop rooted fuel rest.tail out1 out1.length
      else
        cleanLoop rooted fuel rest.tail out dotdot
    else
      -- real path element: add slash if needed, copy element
      let out1 :=
        if (rooted = true ∧ out.length ≠ 1) ∨ (rooted = false ∧ out.length ≠ 0) then
          out ++ ['/']
        else out
      cleanLoop rooted fuel ((c :: rest).dropWhile (fun b => b != '/'))
        (out1 ++ (c :: rest).takeWhile (fun b => b != '/')) dotdot

/-- The function `path.Clean`. -/
def Clean (p : Bytes) : Bytes :=
  if p = [] then ['.']
  else
    let out :=
      if p.head? = some '/' then cleanLoop true p.length p.tail ['/'] 1
      else cleanLoop false p.length p [] 0
    if out = [] then ['.'] else out

/-- The function `path.Join`. -/
def Join (elem : List Bytes) : Bytes :=
  let size := (elem.map List.length).sum
  if size = 0 then []
  else
    Clean (elem.foldl
      (fun buf e =>
        if 0 < buf.length ∨ e ≠ [] then
          (if 0 < buf.length then buf ++ ['/'] else buf) ++ e
        else buf) [])

end path

/-- The output path of `match`:
`path.Join(dirPath, filename[:len(filename)-5]+"-new"+filename[len(filename)-5:])`
with `dirPath, filename := path.Split(e.objPath)`; `none` is the runtime panic
of a slice bound out of range, when `filename` has fewer than 5 bytes. -/
def newFile (objPath : Bytes) : Option Bytes :=
  let dirPath := (path.Split objPath).1
  let filename := (path.Split objPath).2
  if filename.length < 5 then none
  else
    some (path.Join [dirPath,
      filename.take (filename.length - 5) ++ "-new".toList ++
        filename.drop (filename.length - 5)])

/-! ## `match` -/

/-- One turn of the row iterator: the cells `row.Columns()` yields, whether it
reports an error, and whether the cell write and the style call of this row fail. -/
structure RowRead where
  cells : List String
  columnsErr : Bool
  setCellStrErr : Bool
  setCellStyleErr : Bool
  deriving DecidableEq, Repr

/-- What the library answers for one sheet of the target workbook.  `rowsErr` tells
whether `f.Rows(sheetName)` returns an error, `rows` is the iterator it returns: `none`
is the `nil` pointer (what the library returns, with an error, for a sheet name it
rejects or does not find), else everything the iterator yields, header row first. -/
structure Sheet where
  name : String
  insertColsErr : Bool
  setHeaderErr : Bool
  fillStyle : Nat
  fillStyleErr : Bool
  setHeaderStyleErr : Bool
  borderStyle : Nat
  borderStyleErr : Bool
  rowsErr : Bool
  rows : Option (List RowRead)
  deriving DecidableEq, Repr

/-- What the library answers for the target workbook. -/
structure Target where
  openErr : GoError
  sheets : List Sheet
  saveErr : Bool
  closeErr : Bool
  deriving DecidableEq, Repr

/-- The pattern `if err != nil { slog.Error(msg, ...) }`. -/
def logIf (failed : Bool) (msg : String) : List Event :=
  if failed then [Event.log Level.error msg] else []

/-- The cell name `fmt.Sprintf("J%d", rowIndex)`. -/
def cellJ (rowIndex : Nat) : String := "J" ++ toString rowIndex

/-- The value assigned to `IBCode` in one turn of the loop, `r` being the columns of
the row: `if len(r) >= 9 { IBCode = e.cache[r[8]] } else { IBCode = "" }`. -/
def ExcelMatch.ibCode (e : ExcelMatch) (r : List String) : String :=
  if h : 9 ≤ r.length then Cache.get e.cache r[8] else ""

/-- The loop `for row.Next() { ... }` of `match`, from the current `rowIndex` and
the current value of the variable `IBCode`. -/
def ExcelMatch.matchRows (e : ExcelMatch) (sheetName : String) (styleBorder : Nat) :
    List RowRead → Nat → String → List Event
  | [], _, _ => []
  | r :: rest, rowIndex, _ =>
    let IBCode := ExcelMatch.ibCode e r.cells
    let cell := cellJ rowIndex
    logIf r.columnsErr "获取列" ++
      [Event.setCellStr sheetName cell IBCode] ++
      logIf r.setCellStrErr "设置cell的值" ++
      [Event.log Level.debug "设置cell的值"] ++
      [Event.setCellStyle sheetName cell cell styleBorder] ++
      logIf r.setCellStyleErr "设置cell的样式" ++
      ExcelMatch.matchRows e sheetName styleBorder rest (rowIndex + 1) IBCode

/-- The requests of one turn of the loop over the sheets, up to `f.Rows` and the log
of its error. -/
def sheetPrologue (i : Nat) (s : Sheet) : List Event :=
  [Event.setActiveSheet i, Event.insertCols s.name "J" 1] ++
    logIf s.insertColsErr "插入J列失败" ++
    [Event.setCellStr s.name "J1" "IB编码"] ++
    logIf s.setHeaderErr "设置表头" ++
    [Event.newStyle StyleKind.fill] ++
    logIf s.fillStyleErr "创建样式" ++
    [Event.setCellStyle s.name "J1" "J1" s.fillStyle] ++
    logIf s.setHeaderStyleErr "设置样式" ++
    [Event.newStyle StyleKind.border] ++
    logIf s.borderStyleErr "创建样式" ++
    [Event.rows s.name] ++
    logIf s.rowsErr "f.rows()"

/-- One turn of the loop over the sheets: the requests, and whether the turn
ends (`false` is the panic of `row.Next()` on the `nil` iterator).  The first
`row.Next()` drops the header row, the loop starts at `rowIndex = 2` with
`IBCode = ""`. -/
def ExcelMatch.matchSheet (e : ExcelMatch) (i : Nat) (s : Sheet) : List Event × Bool :=
  match s.rows with
  | none => (sheetPrologue i s, false)
  | some rs =>
    (sheetPrologue i s ++ ExcelMatch.matchRows e s.name s.borderStyle (rs.drop 1) 2 "", true)

/-- The loop `for i, sheetName := range f.GetSheetList()`, from sheet index `i`. -/
def ExcelMatch.matchSheets (e : ExcelMatch) : Nat → List Sheet → List Event × Bool
  | _, [] => ([], true)
  | i, s :: rest =>
    match ExcelMatch.matchSheet e i s with
    | (tr, false) => (tr, false)
    | (tr, true) =>
      ((tr ++ (ExcelMatch.matchSheets e (i + 1) rest).1),
        (ExcelMatch.matchSheets e (i + 1) rest).2)

/-- The tail of `match`: save under the derived name, close, return `nil`. -/
def saveAndClose (t : Target) (p : Bytes) : List Event :=
  [Event.saveAs p] ++
    (if t.saveErr then [Event.log Level.error "保存文件失败:"]
     else [Event.log Level.info "保存文件成功:"]) ++
    [Event.close] ++ logIf t.closeErr "关闭文件失败:"

/-- The method `ExcelMatch.match`. -/
def ExcelMatch.match_ (e : ExcelMatch) (t : Target) : Run GoError :=
  match t.openErr with
  | some err => { trace := [Event.openFile e.objPath], outcome := Outcome.returned (some err) }
  | none =>
    match ExcelMatch.matchSheets e 0 t.sheets with
    | (tr, false) => { trace := Event.openFile e.objPath :: tr, outcome := Outcome.panicked }
    | (tr, true) =>
      match newFile e.objPath with
      | none => { trace := Event.openFile e.objPath :: tr, outcome := Outcome.panicked }
      | some p =>
        { trace := Event.openFile e.objPath :: (tr ++ saveAndClose t p),
          outcome := Outcome.returned none }

/-! ## `main` -/

/-- The function `main`, after `getLogger` (which never fails): `hz` and `mx` are the
two flags, `src` and `tgt` what the library answers for the two workbooks. -/
def cmd.main (hz mx : Bytes) (src : Source) (tgt : Target) : Run Unit :=
  if hz = [] then
    { trace := [Event.log Level.info "请输入汇总文件路径"], outcome := Outcome.exited (-1) }
  else if mx = [] then
    { trace := [Event.log Level.info "请输入明细文件路径"], outcome := Outcome.exited (-1) }
  else
    let pre := [Event.log Level.info "汇总文件-匹配的路径:", Event.log Level.info "明细文件-匹配的路径:"]
    let matcher := newExcel hz mx
    let r := ExcelMatch.readExcel matcher hz src
    match r.outcome with
    | Outcome.panicked => { trace := pre ++ r.trace, outcome := Outcome.panicked }
    | Outcome.exited code => { trace := pre ++ r.trace, outcome := Outcome.exited code }
    | Outcome.returned (_, _, some _) =>
      { trace := pre ++ r.trace ++ [Event.log Level.error "读取汇总文件失败"],
        outcome := Outcome.exited (-1) }
    | Outcome.returned (matcher1, n, none) =>
      let m := ExcelMatch.match_ matcher1 tgt
      let tr := pre ++ r.trace ++ [Event.logInt Level.info "读取汇总文件总共行数:" "row" n] ++ m.trace
      match m.outcome with
      | Outcome.panicked => { trace := tr, outcome := Outcome.panicked }
      | Outcome.exited code => { trace := tr, outcome := Outcome.exited code }
      | Outcome.returned (some _) =>
        { trace := tr ++ [Event.log Level.error "匹配错误"], outcome := Outcome.returned () }
      | Outcome.returned none => { trace := tr, outcome := Outcome.returned () }

/-! ## Reading the traces -/

/-- The cell writes of a trace: sheet, cell and value of every `SetCellStr`. -/
def cellWrites : List Event → List (String × String × String)
  | [] => []
  | Event.setCellStr sheet cell value :: rest => (sheet, cell, value) :: cellWrites rest
  | _ :: rest => cellWrites rest

/-- The rows of a sheet that come after the header row. -/
def Sheet.dataRows (s : Sheet) : List RowRead := (s.rows.getD []).drop 1


/-! ## The save path in the words of the specification -/

/-- The file extension of a file name in the words of the specification: the part from
the last `.` onward, empty when the name has no `.`. -/
def specExt (filename : Bytes) : Bytes :=
  let i := path.lastIndexByte filename '.'
  if i < 0 then [] else filename.drop i.toNat

/-- The save path in the words of the specification: the suffix `-new` inserted
immediately before the file extension of the final element, in the same directory. -/
def specSavePath (objPath : Bytes) : Bytes :=
  let dirPath := (path.Split objPath).1
  let filename := (path.Split objPath).2
  path.Join [dirPath,
    filename.take (filename.length - (specExt filename).length) ++ "-new".toList ++
      specExt filename]

/-! ## Properties of paths used in the proofs -/

/-- A prefix of a path that is empty or ends in a slash: what may stand before the final
path element. -/
def SlashEnded (q : Bytes) : Prop := q = [] ∨ ∃ q0, q = q0 ++ ['/']

/-- The path `res` has `name` as its final element. -/
def EndsWithElem (res name : Bytes) : Prop := ∃ q, SlashEnded q ∧ res = q ++ name

/-- The value of a decimal digit. -/
def digitVal (c : Char) : Nat := c.toNat - 48

/-- The number that a list of decimal digits writes. -/
def decimalValue (l : List Char) : Nat := l.foldl (fun acc c => acc * 10 + digitVal c) 0

/-! ## Example data -/

/-- A reference sheet: a header row, the codes `A100` and `A200`, and `A100` once more. -/
def exampleRows : List (List String) :=
  [["序号", "c1", "c2", "c3", "c4", "c5", "编码", "IB编码"],
   ["1", "", "", "", "", "", "A100", "IB001"],
   ["2", "", "", "", "", "", "A200", "IB002"],
   ["3", "", "", "", "", "", "A100", "IB003"]]

/-- A reference workbook that opens and whose sheet `汇总` holds `exampleRows`. -/
def exampleSource : Source :=
  { openErr := none, getRows := Except.ok exampleRows, closeErr := false }

/-- A reference sheet with a blank row between two rows of 8 cells. -/
def blankRowSource : Source :=
  { openErr := none,
    getRows := Except.ok [["1", "", "", "", "", "", "A100", "IB001"], [],
      ["2", "", "", "", "", "", "A200", "IB002"]],
    closeErr := false }

/-- A matcher whose mapping is `A100 -> IB001`, `A200 -> IB002`. -/
def exampleMatcher : ExcelMatch :=
  { srcPath := "hz.xlsx".toList, objPath := "data/summary.xlsx".toList, out := [],
    cache := [("A100", "IB001"), ("A200", "IB002")] }

/-- A target sheet: a header row whose 9th cell is a key of the mapping, a row whose 9th
cell is `A100`, a row whose 9th cell is `A300`, and a row of three cells whose columns
could not be read and whose cell write and style call fail. -/
def exampleSheet : Sheet :=
  { name := "Sheet1", insertColsErr := false, setHeaderErr := false, fillStyle := 1,
    fillStyleErr := false, setHeaderStyleErr := false, borderStyle := 2,
    borderStyleErr := false, rowsErr := false,
    rows := some
      [{ cells := ["h0", "h1", "h2", "h3", "h4", "h5", "h6", "h7", "A200"],
         columnsErr := false, setCellStrErr := false, setCellStyleErr := false },
       { cells := ["1", "", "", "", "", "", "", "", "A100"],
         columnsErr := false, setCellStrErr := false, setCellStyleErr := false },
       { cells := ["2", "", "", "", "", "", "", "", "A300", "x"],
         columnsErr := false, setCellStrErr := false, setCellStyleErr := false },
       { cells := ["3", "", ""],
         columnsErr := true, setCellStrErr := true, setCellStyleErr := true }] }

/-- A target workbook with the sheet `exampleSheet` twice (under two names). -/
def exampleTarget : Target :=
  { openErr := none, sheets := [exampleSheet, { exampleSheet with name := "Sheet2" }],
    saveErr := false, closeErr := false }

/-- A target workbook of two sheets in which `f.Rows` fails for the first sheet. -/
def rowsFailTarget : Target :=
  { openErr := none,
    sheets := [{ exampleSheet with rowsErr := true, rows := none },
      { exampleSheet with name := "Sheet2" }],
    saveErr := false, closeErr := false }

/-- A matcher whose target path has a file name of four bytes. -/
def shortNameMatcher : ExcelMatch :=
  { srcPath := "hz.xlsx".toList, objPath := "data/a.xl".toList, out := [],
    cache := [("A100", "IB001"), ("A200", "IB002")] }
/-! ## Lemmas on the mapping -/

theorem Cache.find?_set (c : Cache) (k v k' : String) :
    Cache.find? (Cache.set c k v) k' = if k = k' then some v else Cache.find? c k' := by
  induction c with
  | nil => simp [Cache.set, Cache.find?]
  | cons hd tl ih =>
    obtain ⟨a, b⟩ := hd
    by_cases hak : a = k
    · subst hak
      by_cases h2 : a = k' <;> simp [Cache.set, Cache.find?, h2]
    · by_cases hak' : a = k'
      · subst hak'
        have : ¬ k = a := fun h => hak h.symm
        simp [Cache.set, Cache.find?, hak, this]
      · simp [Cache.set, Cache.find?, hak, hak', ih]

theorem Cache.mem_keys_set (c : Cache) (k v k' : String) :
    k' ∈ Cache.keys (Cache.set c k v) ↔ k' = k ∨ k' ∈ Cache.keys c := by
  induction c with
  | nil => simp [Cache.set, Cache.keys]
  | cons hd tl ih =>
    obtain ⟨a, b⟩ := hd
    by_cases hak : a = k
    · subst hak
      simp [Cache.set, Cache.keys]
    · simp only [Cache.keys] at ih
      simp [Cache.set, Cache.keys, hak, ih]
      tauto

theorem Cache.nodup_keys_set (c : Cache) (k v : String) (h : (Cache.keys c).Nodup) :
    (Cache.keys (Cache.set c k v)).Nodup := by
  induction c with
  | nil => simp [Cache.set, Cache.keys]
  | cons hd tl ih =>
    obtain ⟨a, b⟩ := hd
    by_cases hak : a = k
    · subst hak
      simpa [Cache.set, Cache.keys] using h
    · have h1 : a ∉ Cache.keys tl ∧ (Cache.keys tl).Nodup := by
        simpa [Cache.keys] using h
      have h2 := ih h1.2
      have h3 : a ∉ Cache.keys (Cache.set tl k v) := by
        rw [Cache.mem_keys_set]
        intro hh
        rcases hh with hh | hh
        · exact hak hh
        · exact h1.1 hh
      have h4 : (Cache.keys ((a, b) :: Cache.set tl k v)).Nodup := by
        rw [Cache.keys, List.map_cons, List.nodup_cons]
        exact ⟨h3, h2⟩
      simpa [Cache.set, hak] using h4

theorem Cache.find?_eq_none_iff (c : Cache) (k : String) :
    Cache.find? c k = none ↔ k ∉ Cache.keys c := by
  induction c with
  | nil => simp [Cache.find?, Cache.keys]
  | cons hd tl ih =>
    obtain ⟨a, b⟩ := hd
    by_cases hak : a = k
    · subst hak
      simp [Cache.find?, Cache.keys]
    · have hka : ¬ k = a := fun h => hak h.symm
      have h5 : k ∈ Cache.keys ((a, b) :: tl) ↔ k ∈ Cache.keys tl := by
        rw [Cache.keys, List.map_cons, List.mem_cons]
        exact ⟨fun h => h.resolve_left hka, Or.inr⟩
      rw [h5, ← ih]
      simp [Cache.find?, hak]

/-! ## Lemmas on the loading loop -/

theorem loadRows_cons_some (row : List String) (rest : List (List String)) (c cf : Cache)
    (h : loadRows (row :: rest) c = some cf) :
    ∃ k v, row[6]? = some k ∧ row[7]? = some v ∧ loadRows rest (Cache.set c k v) = some cf := by
  cases h6 : row[6]? with
  | none => simp [loadRows, h6] at h
  | some k =>
    cases h7 : row[7]? with
    | none => simp [loadRows, h6, h7] at h
    | some v => exact ⟨k, v, rfl, rfl, by simpa [loadRows, h6, h7] using h⟩

theorem loadRows_isSome_iff (rows : List (List String)) (c : Cache) :
    (∃ cf, loadRows rows c = some cf) ↔ ∀ row ∈ rows, 8 ≤ row.length := by
  induction rows generalizing c with
  | nil => simp [loadRows]
  | cons row rest ih =>
    constructor
    · rintro ⟨cf, h⟩
      obtain ⟨k, v, h6, h7, h8⟩ := loadRows_cons_some row rest c cf h
      intro r hr
      rcases List.mem_cons.mp hr with hr | hr
      · subst hr
        have := (List.getElem?_eq_some.mp h7).1
        omega
      · exact (ih (Cache.set c k v)).mp ⟨cf, h8⟩ r hr
    · intro h
      have hrow : 8 ≤ row.length := h row (List.mem_cons_self _ _)
      have h6 : row[6]? = some row[6] := List.getElem?_eq_getElem (by omega)
      have h7 : row[7]? = some row[7] := List.getElem?_eq_getElem (by omega)
      obtain ⟨cf, hcf⟩ := (ih (Cache.set c row[6] row[7])).mpr
        (fun r hr => h r (List.mem_cons_of_mem _ hr))
      exact ⟨cf, by simpa [loadRows, h6, h7] using hcf⟩

theorem loadRows_find (rows : List (List String)) (c cf : Cache)
    (h : loadRows rows c = some cf) (k : String) :
    (∀ i (hi : i < rows.length), rows[i][6]? = some k →
        (∀ j (hj : j < rows.length), i < j → rows[j][6]? ≠ some k) →
        Cache.find? cf k = rows[i][7]?) ∧
      ((∀ row ∈ rows, row[6]? ≠ some k) → Cache.find? cf k = Cache.find? c k) := by
  induction rows generalizing c with
  | nil =>
    constructor
    · intro i hi; simp at hi
    · intro _
      simp [loadRows] at h
      rw [h]
  | cons row rest ih =>
    obtain ⟨k0, v0, h6, h7, h8⟩ := loadRows_cons_some row rest c cf h
    have ih1 := ih (Cache.set c k0 v0) h8
    constructor
    · intro i hi hk hlast
      cases i with
      | zero =>
        have hrest : ∀ r ∈ rest, r[6]? ≠ some k := by
          intro r hr
          obtain ⟨j, hj, hjr⟩ := List.getElem_of_mem hr
          have := hlast (j + 1) (by simpa using hj) (by omega)
          simpa [hjr] using this
        rw [ih1.2 hrest, Cache.find?_set]
        simp only [List.getElem_cons_zero] at hk ⊢
        have hkk : k0 = k := by rw [h6] at hk; exact Option.some.inj hk
        simp [hkk, h7]
      | succ i =>
        simp only [List.getElem_cons_succ] at hk ⊢
        apply ih1.1 i (by simpa using hi) hk
        intro j hj hij
        have := hlast (j + 1) (by simpa using hj) (by omega)
        simpa using this
    · intro hnone
      have hrest : ∀ r ∈ rest, r[6]? ≠ some k := fun r hr => hnone r (List.mem_cons_of_mem _ hr)
      have hrow : row[6]? ≠ some k := hnone row (List.mem_cons_self _ _)
      rw [ih1.2 hrest, Cache.find?_set]
      have : ¬ k0 = k := by
        intro hh
        apply hrow
        rw [h6, hh]
      simp [this]

theorem loadRows_keys (rows : List (List String)) (c cf : Cache)
    (h : loadRows rows c = some cf) (hc : (Cache.keys c).Nodup) :
    (Cache.keys cf).Nodup ∧
      ∀ k, k ∈ Cache.keys cf ↔ k ∈ Cache.keys c ∨ ∃ row ∈ rows, row[6]? = some k := by
  induction rows generalizing c with
  | nil =>
    simp [loadRows] at h
    subst h
    exact ⟨hc, by simp⟩
  | cons row rest ih =>
    obtain ⟨k0, v0, h6, h7, h8⟩ := loadRows_cons_some row rest c cf h
    obtain ⟨hn, hm⟩ := ih (Cache.set c k0 v0) h8 (Cache.nodup_keys_set c k0 v0 hc)
    refine ⟨hn, fun k => ?_⟩
    rw [hm, Cache.mem_keys_set]
    constructor
    · rintro ((hk | hk) | ⟨r, hr, hk⟩)
      · exact Or.inr ⟨row, List.mem_cons_self _ _, by rw [h6, hk]⟩
      · exact Or.inl hk
      · exact Or.inr ⟨r, List.mem_cons_of_mem _ hr, hk⟩
    · rintro (hk | ⟨r, hr, hk⟩)
      · exact Or.inl (Or.inr hk)
      · rcases List.mem_cons.mp hr with hr | hr
        · subst hr
          rw [h6] at hk
          exact Or.inl (Or.inl (Option.some.inj hk).symm)
        · exact Or.inr ⟨r, hr, hk⟩

/-- The number of entries after loading into the empty map is the number of distinct
values of `row[6]`. -/
theorem loadRows_len (rows : List (List String)) (cf : Cache)
    (h : loadRows rows [] = some cf) :
    Cache.len cf = ((rows.map (fun row => row[6]?.getD "")).dedup).length := by
  have hwf := (loadRows_isSome_iff rows []).mp ⟨cf, h⟩
  obtain ⟨hn, hm⟩ := loadRows_keys rows [] cf h (by simp [Cache.keys])
  have h1 : Cache.len cf = (Cache.keys cf).length := by simp [Cache.len, Cache.keys]
  rw [h1, ← List.toFinset_card_of_nodup hn, ← List.card_toFinset]
  congr 1
  ext k
  simp only [List.mem_toFinset, hm, List.mem_map]
  constructor
  · rintro (hk | ⟨r, hr, hk⟩)
    · simp [Cache.keys] at hk
    · exact ⟨r, hr, by simp [hk]⟩
  · rintro ⟨r, hr, hk⟩
    refine Or.inr ⟨r, hr, ?_⟩
    have hlen := hwf r hr
    have h6 : r[6]? = some r[6] := List.getElem?_eq_getElem (by omega)
    rw [h6] at hk ⊢
    simpa using hk

/-! ## Lemmas on cell names -/

theorem digitVal_digitChar (n : Nat) (h : n < 10) : digitVal (Nat.digitChar n) = n := by
  interval_cases n <;> rfl

theorem decimalValue_append (l : List Char) (c : Char) :
    decimalValue (l ++ [c]) = decimalValue l * 10 + digitVal c := by
  simp [decimalValue, List.foldl_append]

theorem toDigitsCore_decimal (fuel : Nat) : ∀ (n : Nat) (ds : List Char), n < fuel →
    ∃ pre, Nat.toDigitsCore 10 fuel n ds = pre ++ ds ∧ decimalValue pre = n := by
  induction fuel with
  | zero => intro n ds h; omega
  | succ fuel ih =>
    intro n ds h
    by_cases h0 : n / 10 = 0
    · refine ⟨[Nat.digitChar (n % 10)], by simp [Nat.toDigitsCore, h0], ?_⟩
      have hlt : n % 10 < 10 := Nat.mod_lt _ (by decide)
      have : decimalValue [Nat.digitChar (n % 10)] = digitVal (Nat.digitChar (n % 10)) := by
        simp [decimalValue]
      rw [this, digitVal_digitChar _ hlt]
      omega
    · obtain ⟨pre, hpre, hval⟩ := ih (n / 10) (Nat.digitChar (n % 10) :: ds) (by omega)
      refine ⟨pre ++ [Nat.digitChar (n % 10)], by simp [Nat.toDigitsCore, h0, hpre], ?_⟩
      have hlt : n % 10 < 10 := Nat.mod_lt _ (by decide)
      rw [decimalValue_append, hval, digitVal_digitChar _ hlt]
      omega

theorem decimalValue_toDigits (n : Nat) : decimalValue (Nat.toDigits 10 n) = n := by
  obtain ⟨pre, hpre, hval⟩ := toDigitsCore_decimal (n + 1) n [] (by omega)
  rw [Nat.toDigits, hpre, List.append_nil, hval]

theorem cellJ_injective (a b : Nat) (h : cellJ a = cellJ b) : a = b := by
  have h1 : (cellJ a).data = (cellJ b).data := by rw [h]
  simp only [cellJ, String.data_append] at h1
  have h2 := List.append_cancel_left h1
  have h3 : Nat.toDigits 10 a = Nat.toDigits 10 b := by
    simpa [toString, Nat.repr, List.asString] using h2
  have h4 := congrArg decimalValue h3
  simpa [decimalValue_toDigits] using h4

theorem cellJ_one : cellJ 1 = "J1" := by decide

theorem cellJ_nodup (n : Nat) :
    ("J1" :: (List.range n).map (fun k => cellJ (k + 2))).Nodup := by
  rw [List.nodup_cons]
  constructor
  · intro hmem
    obtain ⟨k, _, hk⟩ := List.mem_map.mp hmem
    rw [← cellJ_one] at hk
    have := cellJ_injective _ _ hk
    omega
  · refine List.Nodup.map ?_ (List.nodup_range n)
    intro a b hab
    have := cellJ_injective _ _ hab
    omega

/-! ## Lemmas on the traces of `match` -/

theorem cellWrites_append (a b : List Event) :
    cellWrites (a ++ b) = cellWrites a ++ cellWrites b := by
  induction a with
  | nil => rfl
  | cons ev rest ih => cases ev <;> simp [cellWrites, ih]

theorem cellWrites_logIf (failed : Bool) (msg : String) : cellWrites (logIf failed msg) = [] := by
  cases failed <;> rfl

theorem cellWrites_sheetPrologue (i : Nat) (s : Sheet) :
    cellWrites (sheetPrologue i s) = [(s.name, "J1", "IB编码")] := by
  simp [sheetPrologue, cellWrites_append, cellWrites_logIf, cellWrites]

theorem cellWrites_matchRows (e : ExcelMatch) (sheet : String) (style : Nat)
    (rows : List RowRead) : ∀ (rowIndex : Nat) (ib : String),
    cellWrites (ExcelMatch.matchRows e sheet style rows rowIndex ib) =
      (rows.enumFrom rowIndex).map
        (fun p => (sheet, cellJ p.1, ExcelMatch.ibCode e p.2.cells)) := by
  induction rows with
  | nil => intro _ _; rfl
  | cons r rest ih =>
    intro rowIndex ib
    simp [ExcelMatch.matchRows, cellWrites_append, cellWrites_logIf, cellWrites, ih]

theorem matchRows_ibCode_irrelevant (e : ExcelMatch) (sheet : String) (style : Nat)
    (rows : List RowRead) (rowIndex : Nat) (ib ib' : String) :
    ExcelMatch.matchRows e sheet style rows rowIndex ib =
      ExcelMatch.matchRows e sheet style rows rowIndex ib' := by
  cases rows <;> rfl

theorem cellWrites_matchSheet (e : ExcelMatch) (i : Nat) (s : Sheet) :
    cellWrites (ExcelMatch.matchSheet e i s).1 =
      (s.name, "J1", "IB编码") ::
        (s.dataRows.enumFrom 2).map
          (fun p => (s.name, cellJ p.1, ExcelMatch.ibCode e p.2.cells)) := by
  cases hr : s.rows with
  | none =>
    simp [ExcelMatch.matchSheet, hr, Sheet.dataRows, cellWrites_sheetPrologue]
  | some rs =>
    simp [ExcelMatch.matchSheet, hr, Sheet.dataRows, cellWrites_append,
      cellWrites_sheetPrologue, cellWrites_matchRows]

theorem ibCode_of_lt (e : ExcelMatch) (r : List String) (h : r.length < 9) :
    ExcelMatch.ibCode e r = "" := by
  simp [ExcelMatch.ibCode, Nat.not_le.mpr h]

theorem ibCode_of_key (e : ExcelMatch) (r : List String) (key : String)
    (h : r[8]? = some key) : ExcelMatch.ibCode e r = Cache.get e.cache key := by
  obtain ⟨hlt, hget⟩ := List.getElem?_eq_some.mp h
  have h9 : 9 ≤ r.length := by omega
  simp [ExcelMatch.ibCode, h9, hget]

theorem matchSheets_complete (e : ExcelMatch) (sheets : List Sheet) :
    ∀ (i : Nat), (∀ s ∈ sheets, s.rows ≠ none) →
      (ExcelMatch.matchSheets e i sheets).2 = true ∧
      cellWrites (ExcelMatch.matchSheets e i sheets).1 =
        sheets.flatMap (fun s => (s.name, "J1", "IB编码") ::
          (s.dataRows.enumFrom 2).map
            (fun p => (s.name, cellJ p.1, ExcelMatch.ibCode e p.2.cells))) := by
  induction sheets with
  | nil => intro i _; exact ⟨rfl, rfl⟩
  | cons s rest ih =>
    intro i hall
    have hs : s.rows ≠ none := hall s (List.mem_cons_self _ _)
    obtain ⟨h1, h2⟩ := ih (i + 1) (fun t ht => hall t (List.mem_cons_of_mem _ ht))
    have hw := cellWrites_matchSheet e i s
    cases hr : s.rows with
    | none => exact absurd hr hs
    | some rs =>
      have hm : ExcelMatch.matchSheet e i s =
          (sheetPrologue i s ++ ExcelMatch.matchRows e s.name s.borderStyle (rs.drop 1) 2 "",
            true) := by
        simp [ExcelMatch.matchSheet, hr]
      rw [hm] at hw
      simp only [ExcelMatch.matchSheets, hm, h1, cellWrites_append, h2, hw, List.flatMap_cons]
      simp

/-! ## Lemmas on `path.Split` -/

theorem lastIndexByte_spec (c : Char) (p : Bytes) :
    (path.lastIndexByte p c = -1 ∧ c ∉ p) ∨
      ∃ q f, p = q ++ c :: f ∧ c ∉ f ∧ path.lastIndexByte p c = (q.length : Int) := by
  induction p with
  | nil => exact Or.inl ⟨rfl, by simp⟩
  | cons b rest ih =>
    rcases ih with ⟨h1, h2⟩ | ⟨q, f, h1, h2, h3⟩
    · by_cases hb : b = c
      · subst hb
        exact Or.inr ⟨[], rest, rfl, h2, by simp [path.lastIndexByte, h1]⟩
      · refine Or.inl ⟨by simp [path.lastIndexByte, h1, hb], ?_⟩
        simp only [List.mem_cons, not_or]
        exact ⟨fun h => hb h.symm, h2⟩
    · refine Or.inr ⟨b :: q, f, by rw [h1]; rfl, h2, ?_⟩
      have h0 : (0 : Int) ≤ (q.length : Int) := Int.ofNat_nonneg _
      simp only [path.lastIndexByte, h3, h0, if_true, List.length_cons]
      push_cast
      ring

theorem Split_spec (p : Bytes) :
    (path.Split p = ([], p) ∧ '/' ∉ p) ∨
      ∃ q f, p = q ++ '/' :: f ∧ '/' ∉ f ∧ path.Split p = (q ++ ['/'], f) := by
  rcases lastIndexByte_spec '/' p with ⟨h1, h2⟩ | ⟨q, f, h1, h2, h3⟩
  · exact Or.inl ⟨by simp [path.Split, h1], h2⟩
  · refine Or.inr ⟨q, f, h1, h2, ?_⟩
    have h4 : ((q.length : Int) + 1).toNat = q.length + 1 := by omega
    have h5 : q ++ '/' :: f = (q ++ ['/']) ++ f := by simp
    have h6 : (q ++ ['/']).length = q.length + 1 := by simp
    simp only [path.Split, h3, h4]
    rw [h1, h5, ← h6, List.take_left, List.drop_left]

theorem Split_snd_no_slash (p : Bytes) : '/' ∉ (path.Split p).2 := by
  rcases Split_spec p with ⟨h1, h2⟩ | ⟨q, f, _, h2, h3⟩
  · rw [h1]; exact h2
  · rw [h3]; exact h2

theorem Split_fst_append_snd (p : Bytes) : (path.Split p).1 ++ (path.Split p).2 = p := by
  simp [path.Split]

theorem Split_fst_slashEnded (p : Bytes) : SlashEnded (path.Split p).1 := by
  rcases Split_spec p with ⟨h1, _⟩ | ⟨q, f, _, _, h3⟩
  · rw [h1]; exact Or.inl rfl
  · rw [h3]; exact Or.inr ⟨q, rfl⟩

theorem Split_of_endsWithElem (res name : Bytes) (h : EndsWithElem res name)
    (hns : '/' ∉ name) : (path.Split res).2 = name := by
  obtain ⟨q, hq, hres⟩ := h
  rcases Split_spec res with ⟨h1, h2⟩ | ⟨q1, f, h1, h2, h3⟩
  · rcases hq with hq | ⟨q0, hq⟩
    · rw [h1, hres, hq]; rfl
    · exfalso
      apply h2
      rw [hres, hq]
      simp
  · rw [h3]
    show f = name
    rcases hq with hq | ⟨q0, hq⟩
    · exfalso
      apply hns
      have : name = q1 ++ '/' :: f := by rw [← h1, hres, hq]; rfl
      rw [this]
      simp
    · have h4 : (q0 ++ ['/']) ++ name = (q1 ++ ['/']) ++ f := by
        rw [← hq, ← hres, h1]; simp
      -- both sides split at their last slash
      have key : ∀ (a b x y : Bytes), '/' ∉ x → '/' ∉ y →
          (a ++ ['/']) ++ x = (b ++ ['/']) ++ y → x = y := by
        intro a
        induction a with
        | nil =>
          intro b x y hx hy hab
          cases b with
          | nil => simpa using hab
          | cons b0 b1 =>
            exfalso
            simp only [List.nil_append, List.cons_append, List.singleton_append,
              List.cons.injEq] at hab
            apply hx
            rw [hab.2]
            simp
        | cons a0 a1 iha =>
          intro b x y hx hy hab
          cases b with
          | nil =>
            exfalso
            simp only [List.nil_append, List.cons_append, List.singleton_append,
              List.cons.injEq] at hab
            apply hy
            rw [← hab.2]
            simp
          | cons b0 b1 =>
            simp only [List.cons_append, List.cons.injEq] at hab
            exact iha b1 x y hx hy hab.2
      exact (key q0 q1 name f hns h2 h4).symm

/-! ## Lemmas on `path.Clean` -/

theorem slashEnded_cons (c : Char) (q : Bytes) (h : SlashEnded (c :: q)) :
    SlashEnded q ∧ (q = [] → c = '/') := by
  rcases h with h | ⟨q0, h⟩
  · exact absurd h (List.cons_ne_nil _ _)
  · cases q0 with
    | nil =>
      simp only [List.nil_append, List.cons.injEq] at h
      exact ⟨Or.inl h.2, fun _ => h.1⟩
    | cons a q1 =>
      simp only [List.cons_append, List.cons.injEq] at h
      refine ⟨Or.inr ⟨q1, h.2⟩, fun hq => ?_⟩
      rw [hq] at h
      exact absurd h.2.symm (by simp)

theorem slashEnded_suffix (t d : Bytes) (h : SlashEnded (t ++ d)) : SlashEnded d := by
  induction t with
  | nil => exact h
  | cons a t ih => exact ih (slashEnded_cons a (t ++ d) h).1

theorem slashEnded_mem (q : Bytes) (h : SlashEnded q) (hq : q ≠ []) : '/' ∈ q := by
  rcases h with h | ⟨q0, h⟩
  · exact absurd h hq
  · rw [h]; simp

theorem backtrack_ge (out : Bytes) (dotdot : Nat) :
    ∀ w, dotdot ≤ w → dotdot ≤ path.backtrack out dotdot w := by
  intro w
  induction w with
  | zero => intro h; simpa [path.backtrack] using h
  | succ w ih =>
    intro h
    by_cases hc : dotdot < w + 1 ∧ out[w + 1]? ≠ some '/'
    · rw [path.backtrack, if_pos hc]
      exact ih (by omega)
    · rw [path.backtrack, if_neg hc]
      exact h

theorem head?_take_of_pos (out : Bytes) (x : Char) (n : Nat) (h : out.head? = some x)
    (hn : 1 ≤ n) : (out.take n).head? = some x := by
  cases out with
  | nil => simp at h
  | cons a o =>
    cases n with
    | zero => omega
    | succ n => simpa using h

theorem head?_append_of_head? (out l : Bytes) (x : Char) (h : out.head? = some x) :
    (out ++ l).head? = some x := by
  cases out with
  | nil => simp at h
  | cons a o => simpa using h

theorem cleanLoop_nil (rooted : Bool) (fuel : Nat) (out : Bytes) (dotdot : Nat) :
    path.cleanLoop rooted fuel [] out dotdot = out := by
  cases fuel <;> rfl

/-- The final element of the input, when it is a real path element, is the final
element of what the loop of `Clean` writes. -/
theorem cleanLoop_endsWithElem (rooted : Bool) (name : Bytes) (hne : name ≠ [])
    (hns : '/' ∉ name) (hd1 : name ≠ ['.']) (hd2 : name ≠ ['.', '.']) :
    ∀ (fuel : Nat) (q out : Bytes) (dotdot : Nat), SlashEnded q →
      (q ++ name).length ≤ fuel →
      (rooted = true → out.head? = some '/' ∧ 1 ≤ dotdot) →
      EndsWithElem (path.cleanLoop rooted fuel (q ++ name) out dotdot) name := by
  intro fuel
  induction fuel with
  | zero =>
    intro q out dotdot _ hlen _
    exfalso
    apply hne
    have : (q ++ name).length = 0 := by omega
    have h2 := List.length_eq_zero.mp this
    exact (List.append_eq_nil.mp h2).2
  | succ fuel ih =>
    intro q out dotdot hq hlen hinv
    cases q with
    | nil =>
      -- the final element itself
      cases hname : name with
      | nil => exact absurd hname hne
      | cons c t =>
        have hns' : '/' ∉ c :: t := hname ▸ hns
        have hc : c ≠ '/' := fun h => hns' (by rw [h]; simp)
        have ht : '/' ∉ t := fun h => hns' (List.mem_cons_of_mem _ h)
        have hth : t.head? ≠ some '/' := by
          intro h
          cases t with
          | nil => simp at h
          | cons a t1 =>
            simp only [List.head?_cons, Option.some.injEq] at h
            exact ht (by rw [h]; simp)
        have h2 : ¬ (c = '.' ∧ (t = [] ∨ t.head? = some '/')) := by
          rintro ⟨h1, h2 | h2⟩
          · exact hd1 (by rw [hname, h1, h2])
          · exact hth h2
        have h3 : ¬ (c = '.' ∧ t.head? = some '.' ∧
            (t.tail = [] ∨ t.tail.head? = some '/')) := by
          rintro ⟨h1, h4, h5⟩
          cases t with
          | nil => simp at h4
          | cons a t1 =>
            simp only [List.head?_cons, Option.some.injEq] at h4
            simp only [List.tail_cons] at h5
            rcases h5 with h5 | h5
            · exact hd2 (by rw [hname, h1, h4, h5])
            · cases t1 with
              | nil => simp at h5
              | cons b t2 =>
                simp only [List.head?_cons, Option.some.injEq] at h5
                exact ht (by rw [h5]; simp)
        have hall : ∀ x ∈ c :: t, (fun b : Char => b != '/') x = true := by
          intro x hx
          have : x ≠ '/' := fun h => hns' (h ▸ hx)
          simpa using this
        have htw : (c :: t).takeWhile (fun b => b != '/') = c :: t :=
          List.takeWhile_eq_self_iff.mpr hall
        have hdw : (c :: t).dropWhile (fun b => b != '/') = [] :=
          List.dropWhile_eq_nil_iff.mpr hall
        rw [List.nil_append, path.cleanLoop, if_neg hc, if_neg h2, if_neg h3]
        simp only [htw, hdw, cleanLoop_nil]
        by_cases hs : (rooted = true ∧ out.length ≠ 1) ∨ (rooted = false ∧ out.length ≠ 0)
        · rw [if_pos hs]
          exact ⟨out ++ ['/'], Or.inr ⟨out, rfl⟩, rfl⟩
        · rw [if_neg hs]
          refine ⟨out, ?_, rfl⟩
          cases hr : rooted with
          | false =>
            have : out.length = 0 := by
              by_contra h0
              exact hs (Or.inr ⟨hr, h0⟩)
            exact Or.inl (List.length_eq_zero.mp this)
          | true =>
            have h1 : out.length = 1 := by
              by_contra h0
              exact hs (Or.inl ⟨hr, h0⟩)
            have h4 := (hinv hr).1
            cases out with
            | nil => simp at h1
            | cons a o =>
              simp only [List.head?_cons, Option.some.injEq] at h4
              simp only [List.length_cons, Nat.add_left_eq_self, List.length_eq_zero] at h1
              exact Or.inr ⟨[], by rw [h4, h1]; rfl⟩
    | cons c q1 =>
      obtain ⟨hq1, hq1c⟩ := slashEnded_cons c q1 hq
      have hlen1 : (q1 ++ name).length ≤ fuel := by
        simp only [List.cons_append, List.length_cons] at hlen
        omega
      rw [List.cons_append, path.cleanLoop]
      by_cases h1 : c = '/'
      · rw [if_pos h1]
        exact ih q1 out dotdot hq1 hlen1 hinv
      · rw [if_neg h1]
        have hq1ne : q1 ≠ [] := fun h => h1 (hq1c h)
        by_cases h2 : c = '.' ∧ (q1 ++ name = [] ∨ (q1 ++ name).head? = some '/')
        · rw [if_pos h2]
          exact ih q1 out dotdot hq1 hlen1 hinv
        · rw [if_neg h2]
          by_cases h3 : c = '.' ∧ (q1 ++ name).head? = some '.' ∧
              ((q1 ++ name).tail = [] ∨ (q1 ++ name).tail.head? = some '/')
          · rw [if_pos h3]
            -- the second dot is in `q1`
            cases q1 with
            | nil => exact absurd rfl hq1ne
            | cons d q2 =>
              obtain ⟨hq2, hq2c⟩ := slashEnded_cons d q2 hq1
              have hd : d = '.' := by
                have := h3.2.1
                simpa using this
              have hlen2 : (q2 ++ name).length ≤ fuel := by
                simp only [List.cons_append, List.length_cons] at hlen1
                omega
              simp only [List.cons_append, List.tail_cons]
              by_cases h4 : dotdot < out.length
              · rw [if_pos h4]
                apply ih q2 _ dotdot hq2 hlen2
                intro hr
                obtain ⟨hh, hdd⟩ := hinv hr
                have hge := backtrack_ge out dotdot (out.length - 1) (by omega)
                exact ⟨head?_take_of_pos out '/' _ hh (by omega), hdd⟩
              · rw [if_neg h4]
                by_cases h5 : rooted = false
                · rw [if_pos h5]
                  apply ih q2 _ _ hq2 hlen2
                  intro hr
                  rw [h5] at hr
                  exact absurd hr (by decide)
                · rw [if_neg h5]
                  exact ih q2 out dotdot hq2 hlen2 hinv
          · rw [if_neg h3]
            -- a real path element inside `q`
            have hpc : (fun b : Char => b != '/') c = true := by simpa using h1
            have hmem : '/' ∈ q1 := slashEnded_mem q1 hq1 hq1ne
            have hdne : q1.dropWhile (fun b => b != '/') ≠ [] := by
              intro h
              have := List.dropWhile_eq_nil_iff.mp h '/' hmem
              simp at this
            have hdrop : (c :: (q1 ++ name)).dropWhile (fun b => b != '/') =
                q1.dropWhile (fun b => b != '/') ++ name := by
              rw [List.dropWhile_cons, if_pos hpc, List.dropWhile_append]
              have : (q1.dropWhile (fun b => b != '/')).isEmpty = false := by
                cases hh : q1.dropWhile (fun b => b != '/') with
                | nil => exact absurd hh hdne
                | cons _ _ => rfl
              rw [if_neg (by rw [this]; decide)]
            have hsl : SlashEnded (q1.dropWhile (fun b => b != '/')) := by
              apply slashEnded_suffix (q1.takeWhile (fun b => b != '/'))
              rw [List.takeWhile_append_dropWhile]
              exact hq1
            have hlen3 : (q1.dropWhile (fun b => b != '/') ++ name).length ≤ fuel := by
              have := (List.dropWhile_suffix (l := q1) (fun b => b != '/')).length_le
              simp only [List.length_append] at hlen1 ⊢
              omega
            rw [hdrop]
            apply ih _ _ dotdot hsl hlen3
            intro hr
            obtain ⟨hh, hdd⟩ := hinv hr
            refine ⟨?_, hdd⟩
            apply head?_append_of_head?
            by_cases hs : (rooted = true ∧ out.length ≠ 1) ∨ (rooted = false ∧ out.length ≠ 0)
            · rw [if_pos hs]
              exact head?_append_of_head? _ _ _ hh
            · rw [if_neg hs]
              exact hh

theorem Clean_endsWithElem (q name : Bytes) (hq : SlashEnded q) (hne : name ≠ [])
    (hns : '/' ∉ name) (hd1 : name ≠ ['.']) (hd2 : name ≠ ['.', '.']) :
    EndsWithElem (path.Clean (q ++ name)) name := by
  have hnil : q ++ name ≠ [] := fun h => hne (List.append_eq_nil.mp h).2
  have hres : ∀ out, EndsWithElem out name → EndsWithElem (if out = [] then ['.'] else out) name := by
    intro out hout
    have : out ≠ [] := by
      obtain ⟨q', _, h⟩ := hout
      rw [h]
      exact fun h2 => hne (List.append_eq_nil.mp h2).2
    rw [if_neg this]
    exact hout
  rw [path.Clean, if_neg hnil]
  by_cases hh : (q ++ name).head? = some '/'
  · simp only [if_pos hh]
    apply hres
    cases q with
    | nil =>
      exfalso
      cases name with
      | nil => exact hne rfl
      | cons a t =>
        simp only [List.nil_append, List.head?_cons, Option.some.injEq] at hh
        exact hns (by rw [hh]; simp)
    | cons c q1 =>
      simp only [List.cons_append, List.tail_cons]
      apply cleanLoop_endsWithElem true name hne hns hd1 hd2 _ q1 ['/'] 1
        (slashEnded_cons c q1 hq).1
      · simp
      · intro _
        exact ⟨rfl, le_refl 1⟩
  · simp only [if_neg hh]
    apply hres
    apply cleanLoop_endsWithElem false name hne hns hd1 hd2 _ q [] 0 hq (le_refl _)
    intro h
    exact absurd h (by decide)

theorem Join_two (dir name : Bytes) (hne : name ≠ []) :
    path.Join [dir, name] =
      path.Clean ((if dir = [] then [] else dir ++ ['/']) ++ name) := by
  have hsize : ¬ ((([dir, name] : List Bytes).map List.length).sum = 0) := by
    have : 0 < name.length := List.length_pos.mpr hne
    simp only [List.map_cons, List.map_nil, List.sum_cons, List.sum_nil]
    omega
  rw [path.Join]
  simp only [if_neg hsize]
  congr 1
  cases dir with
  | nil => simp [hne]
  | cons c d => simp

theorem Join_endsWithElem (dir name : Bytes) (hne : name ≠ [])
    (hns : '/' ∉ name) (hd1 : name ≠ ['.']) (hd2 : name ≠ ['.', '.']) :
    EndsWithElem (path.Join [dir, name]) name := by
  rw [Join_two dir name hne]
  apply Clean_endsWithElem _ name _ hne hns hd1 hd2
  by_cases hdir : dir = []
  · rw [if_pos hdir]; exact Or.inl rfl
  · rw [if_neg hdir]; exact Or.inr ⟨dir, rfl⟩

/-! ## Lemmas on the save path and on complete runs of `match` -/

theorem newFile_of_split (objPath stem ext : Bytes) (hext : ext.length = 5)
    (h : (path.Split objPath).2 = stem ++ ext) :
    newFile objPath =
      some (path.Join [(path.Split objPath).1, stem ++ "-new".toList ++ ext]) := by
  have hlen : (stem ++ ext).length - 5 = stem.length := by
    simp only [List.length_append, hext]; omega
  have hnot : ¬ (stem ++ ext).length < 5 := by
    simp only [List.length_append, hext]; omega
  simp only [newFile, h, if_neg hnot, hlen, List.take_left, List.drop_left]

theorem match_complete (e : ExcelMatch) (t : Target) (p : Bytes) (hopen : t.openErr = none)
    (hall : ∀ s ∈ t.sheets, s.rows ≠ none) (hp : newFile e.objPath = some p) :
    ExcelMatch.match_ e t =
      { trace := Event.openFile e.objPath ::
          ((ExcelMatch.matchSheets e 0 t.sheets).1 ++ saveAndClose t p),
        outcome := Outcome.returned none } := by
  have h2 := (matchSheets_complete e t.sheets 0 hall).1
  have h3 : ExcelMatch.matchSheets e 0 t.sheets =
      ((ExcelMatch.matchSheets e 0 t.sheets).1, true) := by
    rw [← h2]
  rw [ExcelMatch.match_]
  simp only [hopen]
  rw [h3]
  simp only [hp]

theorem matchSheets_snd (e : ExcelMatch) (sheets : List Sheet) :
    ∀ (i : Nat), (ExcelMatch.matchSheets e i sheets).2 = true ↔ ∀ s ∈ sheets, s.rows ≠ none := by
  induction sheets with
  | nil => intro i; simp [ExcelMatch.matchSheets]
  | cons s rest ih =>
    intro i
    cases hr : s.rows with
    | none =>
      have hm : ExcelMatch.matchSheet e i s = (sheetPrologue i s, false) := by
        simp [ExcelMatch.matchSheet, hr]
      simp [ExcelMatch.matchSheets, hm, hr]
    | some rs =>
      have hm : ExcelMatch.matchSheet e i s =
          (sheetPrologue i s ++ ExcelMatch.matchRows e s.name s.borderStyle (rs.drop 1) 2 "",
            true) := by
        simp [ExcelMatch.matchSheet, hr]
      simp [ExcelMatch.matchSheets, hm, hr, ih (i + 1)]

/-- How `match` ends: with the error of the open when the open fails; else by returning
`nil` when the row iterator of every sheet is obtained and the file name has at least 5
bytes, and by a panic otherwise. -/
theorem match_outcome (e : ExcelMatch) (t : Target) :
    (ExcelMatch.match_ e t).outcome =
      match t.openErr with
      | some err => Outcome.returned (some err)
      | none =>
        if (∀ s ∈ t.sheets, s.rows ≠ none) ∧ 5 ≤ (path.Split e.objPath).2.length then
          Outcome.returned none
        else Outcome.panicked := by
  cases hopen : t.openErr with
  | some err => simp [ExcelMatch.match_, hopen]
  | none =>
    by_cases hall : ∀ s ∈ t.sheets, s.rows ≠ none
    · have h2 := (matchSheets_snd e t.sheets 0).mpr hall
      have h3 : ExcelMatch.matchSheets e 0 t.sheets =
          ((ExcelMatch.matchSheets e 0 t.sheets).1, true) := by
        rw [← h2]
      by_cases hlen : 5 ≤ (path.Split e.objPath).2.length
      · have hnot : ¬ (path.Split e.objPath).2.length < 5 := by omega
        rw [ExcelMatch.match_]
        simp only [hopen]
        rw [h3]
        simp only [newFile, if_neg hnot]
        rw [if_pos ⟨hall, hlen⟩]
      · have hlt : (path.Split e.objPath).2.length < 5 := by omega
        rw [ExcelMatch.match_]
        simp only [hopen]
        rw [h3]
        simp only [newFile, if_pos hlt]
        rw [if_neg (fun h => hlen h.2)]
    · have h2 : (ExcelMatch.matchSheets e 0 t.sheets).2 = false := by
        cases hb : (ExcelMatch.matchSheets e 0 t.sheets).2 with
        | false => rfl
        | true => exact absurd ((matchSheets_snd e t.sheets 0).mp hb) hall
      have h3 : ExcelMatch.matchSheets e 0 t.sheets =
          ((ExcelMatch.matchSheets e 0 t.sheets).1, false) := by
        rw [← h2]
      rw [ExcelMatch.match_]
      simp only [hopen]
      rw [h3]
      simp only []
      rw [if_neg (fun h => hall h.1)]

/-! ## The reference loader -/

/-- C2: when the workbook opens, the sheet is read and every row has at least 8 cells,
`readExcel` returns with a nil error and a mapping in which every string `k` that is
`row[6]` of some row is a key whose value is `row[7]` of the last such row (the first
row is treated like the others), and every other string is not a key. -/
theorem readExcel_last_write_wins (e : ExcelMatch) (srcPath : Bytes) (s : Source)
    (rows : List (List String)) (hopen : s.openErr = none)
    (hrows : s.getRows = Except.ok rows) (hwf : ∀ row ∈ rows, 8 ≤ row.length) :
    ∃ e1 n, (ExcelMatch.readExcel e srcPath s).outcome = Outcome.returned (e1, n, none) ∧
      ∀ k : String,
        (∀ i (hi : i < rows.length) (v : String), rows[i][6]? = some k → rows[i][7]? = some v →
          (∀ j (hj : j < rows.length), i < j → rows[j][6]? ≠ some k) →
          k ∈ Cache.keys e1.cache ∧ Cache.find? e1.cache k = some v ∧
            Cache.get e1.cache k = v) ∧
        ((∀ row ∈ rows, row[6]? ≠ some k) → k ∉ Cache.keys e1.cache) := by
  obtain ⟨cf, hcf⟩ := (loadRows_isSome_iff rows []).mpr hwf
  refine ⟨{ e with cache := cf }, Cache.len cf, ?_, ?_⟩
  · simp [ExcelMatch.readExcel, hopen, hrows, hcf]
  · intro k
    have hfind := loadRows_find rows [] cf hcf k
    constructor
    · intro i hi v h6 h7 hlast
      have hv : Cache.find? cf k = some v := by rw [hfind.1 i hi h6 hlast, h7]
      refine ⟨?_, hv, by simp [Cache.get, hv]⟩
      by_contra hk
      rw [(Cache.find?_eq_none_iff cf k).mpr hk] at hv
      exact Option.noConfusion hv
    · intro hnone
      rw [← Cache.find?_eq_none_iff]
      show Cache.find? cf k = none
      rw [hfind.2 hnone]
      rfl

/-- The witness of C2: `exampleRows` has the code `A100` in two rows. -/
theorem readExcel_last_write_wins_witness :
    exampleSource.openErr = none ∧ exampleSource.getRows = Except.ok exampleRows ∧
      (∀ row ∈ exampleRows, 8 ≤ row.length) ∧
      ∃ e1 n, (ExcelMatch.readExcel (newExcel [] []) [] exampleSource).outcome =
          Outcome.returned (e1, n, none) ∧
        ∀ k : String,
          (∀ i (hi : i < exampleRows.length) (v : String),
            exampleRows[i][6]? = some k → exampleRows[i][7]? = some v →
            (∀ j (hj : j < exampleRows.length), i < j → exampleRows[j][6]? ≠ some k) →
            k ∈ Cache.keys e1.cache ∧ Cache.find? e1.cache k = some v ∧
              Cache.get e1.cache k = v) ∧
          ((∀ row ∈ exampleRows, row[6]? ≠ some k) → k ∉ Cache.keys e1.cache) :=
  ⟨rfl, rfl, by decide,
    readExcel_last_write_wins (newExcel [] []) [] exampleSource exampleRows rfl rfl (by decide)⟩

/-- C9: when the workbook opens, the sheet is read and every row has at least 8 cells,
the integer returned by `readExcel` is the number of entries of the mapping, which is
the number of distinct values of `row[6]` over all rows; it is at most the number of
rows and equals it exactly when no value of `row[6]` occurs in two rows; `main` logs
this integer under the message "读取汇总文件总共行数:". -/
theorem readExcel_count_distinct (e : ExcelMatch) (srcPath : Bytes) (s : Source)
    (rows : List (List String)) (hopen : s.openErr = none)
    (hrows : s.getRows = Except.ok rows) (hwf : ∀ row ∈ rows, 8 ≤ row.length) :
    ∃ e1 n, (ExcelMatch.readExcel e srcPath s).outcome = Outcome.returned (e1, n, none) ∧
      n = Cache.len e1.cache ∧
      n = ((rows.map (fun row => row[6]?.getD "")).dedup).length ∧
      n ≤ rows.length ∧
      (n = rows.length ↔ (rows.map (fun row => row[6]?.getD "")).Nodup) ∧
      ∀ (hz mx : Bytes) (tgt : Target), hz ≠ [] → mx ≠ [] →
        Event.logInt Level.info "读取汇总文件总共行数:" "row" n ∈ (cmd.main hz mx s tgt).trace := by
  obtain ⟨cf, hcf⟩ := (loadRows_isSome_iff rows []).mpr hwf
  have hlen := loadRows_len rows cf hcf
  have hle : ((rows.map (fun row => row[6]?.getD "")).dedup).length ≤ rows.length := by
    have := (List.dedup_sublist (rows.map (fun row => row[6]?.getD ""))).length_le
    simpa using this
  refine ⟨{ e with cache := cf }, Cache.len cf, ?_, rfl, hlen, ?_, ?_, ?_⟩
  · simp [ExcelMatch.readExcel, hopen, hrows, hcf]
  · rw [hlen]; exact hle
  · rw [hlen]
    constructor
    · intro h
      have hsub := List.dedup_sublist (rows.map (fun row => row[6]?.getD ""))
      have heq := hsub.eq_of_length (by simpa using h)
      exact List.dedup_eq_self.mp heq
    · intro h
      rw [List.Nodup.dedup h]
      simp
  · intro hz mx tgt hhz hmx
    simp [cmd.main, hhz, hmx, ExcelMatch.readExcel, hopen, hrows, newExcel, hcf]
    cases hm : (ExcelMatch.match_ { srcPath := hz, objPath := mx, out := [], cache := cf } tgt).outcome with
    | panicked => simp
    | exited code => simp
    | returned v => cases v <;> simp

/-- The witness of C9: four rows, three distinct codes. -/
theorem readExcel_count_distinct_witness :
    exampleSource.openErr = none ∧ exampleSource.getRows = Except.ok exampleRows ∧
      (∀ row ∈ exampleRows, 8 ≤ row.length) ∧
      ∃ e1 n, (ExcelMatch.readExcel (newExcel [] []) [] exampleSource).outcome =
          Outcome.returned (e1, n, none) ∧
        n = Cache.len e1.cache ∧
        n = ((exampleRows.map (fun row => row[6]?.getD "")).dedup).length ∧
        n ≤ exampleRows.length ∧
        (n = exampleRows.length ↔ (exampleRows.map (fun row => row[6]?.getD "")).Nodup) ∧
        ∀ (hz mx : Bytes) (tgt : Target), hz ≠ [] → mx ≠ [] →
          Event.logInt Level.info "读取汇总文件总共行数:" "row" n ∈
            (cmd.main hz mx exampleSource tgt).trace :=
  ⟨rfl, rfl, by decide,
    readExcel_count_distinct (newExcel [] []) [] exampleSource exampleRows rfl rfl (by decide)⟩

/-- C10: on a workbook that opens and whose sheet is read, `readExcel` returns (a
mapping, a count and a nil error) if and only if every row has at least 8 cells; a
single row with fewer than 8 cells makes the whole run end in a panic, the row is
not skipped. -/
theorem readExcel_completes_iff (e : ExcelMatch) (srcPath : Bytes) (s : Source)
    (rows : List (List String)) (hopen : s.openErr = none)
    (hrows : s.getRows = Except.ok rows) :
    ((∃ e1 n, (ExcelMatch.readExcel e srcPath s).outcome = Outcome.returned (e1, n, none)) ↔
        ∀ row ∈ rows, 8 ≤ row.length) ∧
      ((∃ row ∈ rows, row.length < 8) →
        (ExcelMatch.readExcel e srcPath s).outcome = Outcome.panicked) := by
  cases hl : loadRows rows [] with
  | none =>
    have hnot : ¬ ∀ row ∈ rows, 8 ≤ row.length := by
      intro hwf
      obtain ⟨cf, hcf⟩ := (loadRows_isSome_iff rows []).mpr hwf
      rw [hl] at hcf
      exact Option.noConfusion hcf
    have hp : (ExcelMatch.readExcel e srcPath s).outcome = Outcome.panicked := by
      simp [ExcelMatch.readExcel, hopen, hrows, hl]
    refine ⟨⟨?_, fun h => absurd h hnot⟩, fun _ => hp⟩
    rintro ⟨e1, n, h⟩
    rw [hp] at h
    exact Outcome.noConfusion h
  | some cf =>
    have hwf := (loadRows_isSome_iff rows []).mp ⟨cf, hl⟩
    have hr : (ExcelMatch.readExcel e srcPath s).outcome =
        Outcome.returned ({ e with cache := cf }, Cache.len cf, none) := by
      simp [ExcelMatch.readExcel, hopen, hrows, hl]
    refine ⟨⟨fun _ => hwf, fun _ => ⟨_, _, hr⟩⟩, ?_⟩
    rintro ⟨row, hrow, hlt⟩
    have := hwf row hrow
    omega

/-- The witness of C10: a sheet with a blank row. -/
theorem readExcel_completes_iff_witness :
    blankRowSource.openErr = none ∧
      blankRowSource.getRows = Except.ok [["1", "", "", "", "", "", "A100", "IB001"], [],
        ["2", "", "", "", "", "", "A200", "IB002"]] ∧
      (((∃ e1 n, (ExcelMatch.readExcel (newExcel [] []) [] blankRowSource).outcome =
            Outcome.returned (e1, n, none)) ↔
          ∀ row ∈ [["1", "", "", "", "", "", "A100", "IB001"], [],
            ["2", "", "", "", "", "", "A200", "IB002"]], 8 ≤ row.length) ∧
        ((∃ row ∈ [["1", "", "", "", "", "", "A100", "IB001"], [],
            ["2", "", "", "", "", "", "A200", "IB002"]], row.length < 8) →
          (ExcelMatch.readExcel (newExcel [] []) [] blankRowSource).outcome =
            Outcome.panicked)) :=
  ⟨rfl, rfl, readExcel_completes_iff (newExcel [] []) [] blankRowSource _ rfl rfl⟩

/-- C8: when the reference workbook cannot be opened, `readExcel` ends in a panic:
it returns nothing, reads no sheet, and `main` ends in the same panic without any
request on the target workbook; when the workbook opens and `GetRows("汇总")` fails,
`readExcel` returns the count 0 with a non-nil error, the mapping stays empty and the
workbook is closed after the failed read; when the workbook opens and the sheet is
read, the workbook is closed, a returned error is always nil, and with rows of at
least 8 cells the run does return. -/
theorem readExcel_error_surface (e : ExcelMatch) (srcPath : Bytes) (s : Source) :
    (∀ err, s.openErr = some err →
      (ExcelMatch.readExcel e srcPath s).outcome = Outcome.panicked ∧
      (ExcelMatch.readExcel e srcPath s).trace =
        [Event.openFile srcPath, Event.log Level.error "打开文件失败"] ∧
      ∀ (hz mx : Bytes) (tgt : Target), hz ≠ [] → mx ≠ [] →
        (cmd.main hz mx s tgt).outcome = Outcome.panicked ∧
        (cmd.main hz mx s tgt).trace =
          [Event.log Level.info "汇总文件-匹配的路径:", Event.log Level.info "明细文件-匹配的路径:",
            Event.openFile hz, Event.log Level.error "打开文件失败"]) ∧
    (s.openErr = none → ∀ err, s.getRows = Except.error err →
      (∃ msg, (ExcelMatch.readExcel e srcPath s).outcome =
        Outcome.returned ({ e with cache := [] }, 0, some msg)) ∧
      (ExcelMatch.readExcel e srcPath s).trace =
        [Event.openFile srcPath, Event.getRows "汇总"] ++ deferredClose s ∧
      (deferredClose s).head? = some Event.close) ∧
    (s.openErr = none → ∀ rows, s.getRows = Except.ok rows →
      Event.close ∈ (ExcelMatch.readExcel e srcPath s).trace ∧
      (∀ e1 n err, (ExcelMatch.readExcel e srcPath s).outcome = Outcome.returned (e1, n, err) →
        err = none) ∧
      ((∀ row ∈ rows, 8 ≤ row.length) →
        ∃ e1 n, (ExcelMatch.readExcel e srcPath s).outcome = Outcome.returned (e1, n, none))) := by
  refine ⟨?_, ?_, ?_⟩
  · intro err herr
    refine ⟨by simp [ExcelMatch.readExcel, herr], by simp [ExcelMatch.readExcel, herr], ?_⟩
    intro hz mx tgt hhz hmx
    simp [cmd.main, hhz, hmx, ExcelMatch.readExcel, herr, newExcel]
  · intro hopen err herr
    refine ⟨⟨_, by simp [ExcelMatch.readExcel, hopen, herr]; rfl⟩,
      by simp [ExcelMatch.readExcel, hopen, herr], by simp [deferredClose]⟩
  · intro hopen rows hrows
    cases hl : loadRows rows [] with
    | none =>
      refine ⟨by simp [ExcelMatch.readExcel, hopen, hrows, hl, deferredClose], ?_, ?_⟩
      · intro e1 n err h
        simp [ExcelMatch.readExcel, hopen, hrows, hl] at h
      · intro hwf
        obtain ⟨cf, hcf⟩ := (loadRows_isSome_iff rows []).mpr hwf
        rw [hl] at hcf
        exact Option.noConfusion hcf
    | some cf =>
      refine ⟨by simp [ExcelMatch.readExcel, hopen, hrows, hl, deferredClose], ?_, ?_⟩
      · intro e1 n err h
        simp [ExcelMatch.readExcel, hopen, hrows, hl] at h
        exact h.2.2.symm
      · intro _
        exact ⟨{ e with cache := cf }, Cache.len cf,
          by simp [ExcelMatch.readExcel, hopen, hrows, hl]⟩

/-! ## The annotator: values and cells -/

/-- C1: in a sheet whose row iterator was obtained, the data row `r` at position `k`
after the header row gets exactly one write, to cell `J{k+2}`, and the value written is
`e.cache[r[8]]` when `r` has a 9th cell that is a key of the mapping, the empty string
when `r` has a 9th cell that is not a key, and the empty string when `r` has fewer
than 9 cells; the value of the variable `IBCode` left by the previous row plays no
part. -/
theorem match_written_value (e : ExcelMatch) (i : Nat) (s : Sheet) (rs : List RowRead)
    (hrs : s.rows = some rs) (k : Nat) (r : RowRead) (hr : rs[k + 1]? = some r) :
    ∃ v, (cellWrites (ExcelMatch.matchSheet e i s).1)[k + 1]? =
        some (s.name, cellJ (k + 2), v) ∧
      (∀ key, r.cells[8]? = some key → key ∈ Cache.keys e.cache →
        Cache.find? e.cache key = some v ∧ v = Cache.get e.cache key) ∧
      (∀ key, r.cells[8]? = some key → key ∉ Cache.keys e.cache → v = "") ∧
      (r.cells.length < 9 → v = "") ∧
      ∀ (rows : List RowRead) (rowIndex : Nat) (ib ib' : String),
        ExcelMatch.matchRows e s.name s.borderStyle rows rowIndex ib =
          ExcelMatch.matchRows e s.name s.borderStyle rows rowIndex ib' := by
  refine ⟨ExcelMatch.ibCode e r.cells, ?_, ?_, ?_, ibCode_of_lt e r.cells,
    matchRows_ibCode_irrelevant e s.name s.borderStyle⟩
  · have hd : s.dataRows[k]? = some r := by
      simp only [Sheet.dataRows, hrs, Option.getD_some, List.getElem?_drop]
      rw [Nat.add_comm]; exact hr
    rw [cellWrites_matchSheet, List.getElem?_cons_succ, List.getElem?_map,
      List.getElem?_enumFrom, hd]
    simp [Nat.add_comm]
  · intro key hkey hmem
    rw [ibCode_of_key e r.cells key hkey]
    cases hf : Cache.find? e.cache key with
    | none => exact absurd hmem ((Cache.find?_eq_none_iff e.cache key).mp hf)
    | some x => simp [Cache.get, hf]
  · intro key hkey hmem
    rw [ibCode_of_key e r.cells key hkey]
    simp [Cache.get, (Cache.find?_eq_none_iff e.cache key).mpr hmem]

/-- The witness of C1: with the mapping `A100 -> IB001`, `A200 -> IB002`, the rows
whose 9th cells are `A100` and `A300` give `J2 = "IB001"` and `J3 = ""`. -/
theorem match_written_value_witness :
    (exampleSheet.rows = some (exampleSheet.rows.getD []) ∧
      (exampleSheet.rows.getD [])[0 + 1]? =
        some { cells := ["1", "", "", "", "", "", "", "", "A100"],
               columnsErr := false, setCellStrErr := false, setCellStyleErr := false }) ∧
    (∃ v, (cellWrites (ExcelMatch.matchSheet exampleMatcher 0 exampleSheet).1)[0 + 1]? =
        some (exampleSheet.name, cellJ (0 + 2), v) ∧
      (∀ key, ["1", "", "", "", "", "", "", "", "A100"][8]? = some key →
        key ∈ Cache.keys exampleMatcher.cache →
        Cache.find? exampleMatcher.cache key = some v ∧
          v = Cache.get exampleMatcher.cache key) ∧
      (∀ key, ["1", "", "", "", "", "", "", "", "A100"][8]? = some key →
        key ∉ Cache.keys exampleMatcher.cache → v = "") ∧
      ((["1", "", "", "", "", "", "", "", "A100"] : List String).length < 9 → v = "") ∧
      ∀ (rows : List RowRead) (rowIndex : Nat) (ib ib' : String),
        ExcelMatch.matchRows exampleMatcher exampleSheet.name exampleSheet.borderStyle
            rows rowIndex ib =
          ExcelMatch.matchRows exampleMatcher exampleSheet.name exampleSheet.borderStyle
            rows rowIndex ib') ∧
    cellWrites (ExcelMatch.matchSheet exampleMatcher 0 exampleSheet).1 =
      [("Sheet1", "J1", "IB编码"), ("Sheet1", "J2", "IB001"), ("Sheet1", "J3", ""),
        ("Sheet1", "J4", "")] :=
  ⟨⟨rfl, rfl⟩,
    match_written_value exampleMatcher 0 exampleSheet (exampleSheet.rows.getD []) rfl 0
      { cells := ["1", "", "", "", "", "", "", "", "A100"],
        columnsErr := false, setCellStrErr := false, setCellStyleErr := false } rfl,
    by decide⟩

/-- C3: when the row iterator of every sheet is obtained, the loop over the sheets runs
to its end, and the cells written are, sheet after sheet, `J1` and then `J2`, `J3`, ...
one for each data row in the order of the iterator, whatever the rows hold and
whichever calls fail; the cells of one sheet are pairwise different, and the numbering
starts again at 2 in every sheet. -/
theorem match_row_numbering (e : ExcelMatch) (i : Nat) (sheets : List Sheet)
    (hall : ∀ s ∈ sheets, s.rows ≠ none) :
    (ExcelMatch.matchSheets e i sheets).2 = true ∧
      (cellWrites (ExcelMatch.matchSheets e i sheets).1).map (fun w => (w.1, w.2.1)) =
        sheets.flatMap (fun s => (s.name, "J1") ::
          (List.range s.dataRows.length).map (fun k => (s.name, cellJ (k + 2)))) ∧
      ∀ s ∈ sheets,
        ("J1" :: (List.range s.dataRows.length).map (fun k => cellJ (k + 2))).Nodup := by
  obtain ⟨h1, h2⟩ := matchSheets_complete e sheets i hall
  refine ⟨h1, ?_, fun s _ => cellJ_nodup _⟩
  rw [h2, List.map_flatMap]
  congr 1
  funext s
  simp only [List.map_cons, List.map_map]
  congr 1
  apply List.ext_getElem?
  intro n
  simp only [List.getElem?_map, List.getElem?_enumFrom]
  by_cases hn : n < s.dataRows.length
  · simp [List.getElem?_eq_getElem hn, List.getElem?_range hn, Nat.add_comm]
  · have h3 : s.dataRows[n]? = none := List.getElem?_eq_none (by omega)
    have h4 : (List.range s.dataRows.length)[n]? = none :=
      List.getElem?_eq_none (by simpa using Nat.not_lt.mp hn)
    simp [h3, h4]

/-- The witness of C3: a workbook of two sheets with three data rows each. -/
theorem match_row_numbering_witness :
    (∀ s ∈ exampleTarget.sheets, s.rows ≠ none) ∧
      ((ExcelMatch.matchSheets exampleMatcher 0 exampleTarget.sheets).2 = true ∧
        (cellWrites (ExcelMatch.matchSheets exampleMatcher 0 exampleTarget.sheets).1).map
            (fun w => (w.1, w.2.1)) =
          exampleTarget.sheets.flatMap (fun s => (s.name, "J1") ::
            (List.range s.dataRows.length).map (fun k => (s.name, cellJ (k + 2)))) ∧
        ∀ s ∈ exampleTarget.sheets,
          ("J1" :: (List.range s.dataRows.length).map (fun k => cellJ (k + 2))).Nodup) ∧
      (cellWrites (ExcelMatch.matchSheets exampleMatcher 0 exampleTarget.sheets).1).map
          (fun w => (w.1, w.2.1)) =
        [("Sheet1", "J1"), ("Sheet1", "J2"), ("Sheet1", "J3"), ("Sheet1", "J4"),
          ("Sheet2", "J1"), ("Sheet2", "J2"), ("Sheet2", "J3"), ("Sheet2", "J4")] :=
  ⟨by decide, match_row_numbering exampleMatcher 0 exampleTarget.sheets (by decide),
    by decide⟩

/-- C4: in every sheet the first cell write is the literal "IB编码" to `J1`, and no
later write of the sheet targets `J1`; the header row is not looked up: replacing it by
any other row leaves the run of the sheet unchanged; a sheet with no rows or with only
a header row gets the write to `J1` and no other. -/
theorem match_header_cell (e : ExcelMatch) (i : Nat) (s : Sheet) :
    (cellWrites (ExcelMatch.matchSheet e i s).1).head? = some (s.name, "J1", "IB编码") ∧
      (∀ w ∈ (cellWrites (ExcelMatch.matchSheet e i s).1).tail, w.2.1 ≠ "J1") ∧
      (∀ (hdr hdr' : RowRead) (rest : List RowRead),
        ExcelMatch.matchSheet e i { s with rows := some (hdr :: rest) } =
          ExcelMatch.matchSheet e i { s with rows := some (hdr' :: rest) }) ∧
      (∀ hdr : RowRead,
        cellWrites (ExcelMatch.matchSheet e i { s with rows := some [hdr] }).1 =
          [(s.name, "J1", "IB编码")]) ∧
      cellWrites (ExcelMatch.matchSheet e i { s with rows := some [] }).1 =
        [(s.name, "J1", "IB编码")] := by
  refine ⟨by rw [cellWrites_matchSheet]; rfl, ?_, fun _ _ _ => rfl, ?_, ?_⟩
  · rw [cellWrites_matchSheet, List.tail_cons]
    intro w hw
    obtain ⟨p, hp, hpw⟩ := List.mem_map.mp hw
    obtain ⟨n, hn, hnp⟩ := List.getElem_of_mem hp
    rw [List.getElem_enumFrom] at hnp
    subst hpw
    subst hnp
    intro hJ
    rw [← cellJ_one] at hJ
    have := cellJ_injective _ _ hJ
    simp at this
    omega
  · intro hdr
    rw [cellWrites_matchSheet]
    rfl
  · rw [cellWrites_matchSheet]
    rfl

/-! ## The annotator: the save path -/

/-- C5: when the final element of the target path is `stem ++ ".xlsx"` (the stem may be
empty), the save path is `path.Join(dir, stem + "-new" + ".xlsx")` with `dir` the
directory part of `path.Split`; its final element is `stem + "-new.xlsx"`, so it
differs from the target path; and in every run of `match` that reaches the save (the
workbook opens, the row iterator of every sheet is obtained) this is the path passed
to `SaveAs`, right after the requests of the sheets. -/
theorem newFile_xlsx (objPath stem : Bytes)
    (h : (path.Split objPath).2 = stem ++ ".xlsx".toList) :
    newFile objPath =
        some (path.Join [(path.Split objPath).1, stem ++ "-new".toList ++ ".xlsx".toList]) ∧
      (path.Split (path.Join
        [(path.Split objPath).1, stem ++ "-new".toList ++ ".xlsx".toList])).2 =
          stem ++ "-new".toList ++ ".xlsx".toList ∧
      path.Join [(path.Split objPath).1, stem ++ "-new".toList ++ ".xlsx".toList] ≠ objPath ∧
      ∀ (e : ExcelMatch) (t : Target), e.objPath = objPath → t.openErr = none →
        (∀ s ∈ t.sheets, s.rows ≠ none) →
        ExcelMatch.match_ e t =
          { trace := Event.openFile objPath ::
              ((ExcelMatch.matchSheets e 0 t.sheets).1 ++
                saveAndClose t (path.Join
                  [(path.Split objPath).1, stem ++ "-new".toList ++ ".xlsx".toList])),
            outcome := Outcome.returned none } ∧
        (saveAndClose t (path.Join
            [(path.Split objPath).1, stem ++ "-new".toList ++ ".xlsx".toList])).head? =
          some (Event.saveAs (path.Join
            [(path.Split objPath).1, stem ++ "-new".toList ++ ".xlsx".toList])) := by
  have hnew := newFile_of_split objPath stem ".xlsx".toList rfl h
  have hstem : '/' ∉ stem := by
    intro hmem
    apply Split_snd_no_slash objPath
    rw [h]
    exact List.mem_append_left _ hmem
  have hns : '/' ∉ stem ++ "-new".toList ++ ".xlsx".toList := by
    intro hmem
    rcases List.mem_append.mp hmem with hmem | hmem
    · rcases List.mem_append.mp hmem with hmem | hmem
      · exact hstem hmem
      · revert hmem; decide
    · revert hmem; decide
  have hlen : (stem ++ "-new".toList ++ ".xlsx".toList).length = stem.length + 9 := by
    simp [List.length_append]
  have hne : stem ++ "-new".toList ++ ".xlsx".toList ≠ [] := by
    intro h0; rw [h0] at hlen; simp at hlen
  have hd1 : stem ++ "-new".toList ++ ".xlsx".toList ≠ ['.'] := by
    intro h0; rw [h0] at hlen; simp at hlen
  have hd2 : stem ++ "-new".toList ++ ".xlsx".toList ≠ ['.', '.'] := by
    intro h0; rw [h0] at hlen; simp at hlen
  have hends := Join_endsWithElem (path.Split objPath).1 _ hne hns hd1 hd2
  have hsplit := Split_of_endsWithElem _ _ hends hns
  refine ⟨hnew, hsplit, ?_, ?_⟩
  · intro heq
    rw [heq, h] at hsplit
    have := congrArg List.length hsplit
    simp [List.length_append] at this
  · intro e t he hopen hall
    subst he
    exact ⟨match_complete e t _ hopen hall hnew, rfl⟩

/-- The witness of C5: the target path `data/summary.xlsx`; `report.xlsx` gives
`report-new.xlsx` and `data/summary.xlsx` gives `data/summary-new.xlsx`. -/
theorem newFile_xlsx_witness :
    (path.Split "data/summary.xlsx".toList).2 = "summary".toList ++ ".xlsx".toList ∧
      (newFile "data/summary.xlsx".toList =
          some (path.Join [(path.Split "data/summary.xlsx".toList).1,
            "summary".toList ++ "-new".toList ++ ".xlsx".toList]) ∧
        (path.Split (path.Join [(path.Split "data/summary.xlsx".toList).1,
          "summary".toList ++ "-new".toList ++ ".xlsx".toList])).2 =
            "summary".toList ++ "-new".toList ++ ".xlsx".toList ∧
        path.Join [(path.Split "data/summary.xlsx".toList).1,
          "summary".toList ++ "-new".toList ++ ".xlsx".toList] ≠ "data/summary.xlsx".toList ∧
        ∀ (e : ExcelMatch) (t : Target), e.objPath = "data/summary.xlsx".toList →
          t.openErr = none → (∀ s ∈ t.sheets, s.rows ≠ none) →
          ExcelMatch.match_ e t =
            { trace := Event.openFile "data/summary.xlsx".toList ::
                ((ExcelMatch.matchSheets e 0 t.sheets).1 ++
                  saveAndClose t (path.Join [(path.Split "data/summary.xlsx".toList).1,
                    "summary".toList ++ "-new".toList ++ ".xlsx".toList])),
              outcome := Outcome.returned none } ∧
          (saveAndClose t (path.Join [(path.Split "data/summary.xlsx".toList).1,
              "summary".toList ++ "-new".toList ++ ".xlsx".toList])).head? =
            some (Event.saveAs (path.Join [(path.Split "data/summary.xlsx".toList).1,
              "summary".toList ++ "-new".toList ++ ".xlsx".toList]))) ∧
      newFile "report.xlsx".toList = some "report-new.xlsx".toList ∧
      newFile "data/summary.xlsx".toList = some "data/summary-new.xlsx".toList :=
  ⟨by decide, newFile_xlsx "data/summary.xlsx".toList "summary".toList (by decide),
    by decide, by decide⟩

/-- C6, the claim as stated fails: for the target path `book.xls` the code inserts
`-new` before the last five bytes and saves to `boo-newk.xls`, not to `book-new.xls`;
for `report` (no extension) it saves to `r-neweport`. -/
theorem newFile_not_before_extension :
    newFile "book.xls".toList = some "boo-newk.xls".toList ∧
      specSavePath "book.xls".toList = "book-new.xls".toList ∧
      newFile "book.xls".toList ≠ some (specSavePath "book.xls".toList) ∧
      newFile "report".toList = some "r-neweport".toList ∧
      specSavePath "report".toList = "report-new".toList := by
  decide

/-- C6 as amended: for every target path whose final element has a file extension (the
part from the last `.` onward) of exactly 5 bytes, as `.xlsx`, `.xlsm` and `.xltx`
are, the save path is the target path with `-new` inserted immediately before that
extension, in the directory of the target path. -/
theorem newFile_five_byte_extension (objPath : Bytes)
    (h : (specExt (path.Split objPath).2).length = 5) :
    newFile objPath = some (specSavePath objPath) := by
  rcases lastIndexByte_spec '.' (path.Split objPath).2 with ⟨h1, _⟩ | ⟨q, f, h1, _, h3⟩
  · rw [specExt] at h
    simp [h1] at h
  · have h4 : ((q.length : Int)).toNat = q.length := by omega
    have h0 : ¬ ((q.length : Int) < 0) := by omega
    have hext : specExt (path.Split objPath).2 = '.' :: f := by
      rw [specExt]
      simp only [h3, h0, if_false, h4]
      rw [h1, List.drop_left]
    rw [hext] at h
    have hstem : (path.Split objPath).2.take
        ((path.Split objPath).2.length - ('.' :: f).length) = q := by
      rw [h1]
      have : (q ++ '.' :: f).length - ('.' :: f).length = q.length := by
        simp [List.length_append]
      rw [this, List.take_left]
    rw [newFile_of_split objPath q ('.' :: f) h h1, specSavePath, hext, hstem]

/-- The witness of amended C6: `data/summary.xlsx` and the extension `.xlsx`. -/
theorem newFile_five_byte_extension_witness :
    (specExt (path.Split "data/summary.xlsx".toList).2).length = 5 ∧
      newFile "data/summary.xlsx".toList = some (specSavePath "data/summary.xlsx".toList) ∧
      specSavePath "data/summary.xlsx".toList = "data/summary-new.xlsx".toList :=
  ⟨by decide, newFile_five_byte_extension "data/summary.xlsx".toList (by decide), by decide⟩

/-! ## The annotator: the error policy -/

/-- C7, the claim fails on the code: on a workbook that opens, when `f.Rows` fails for
the first sheet, `match` logs the failure and then panics on the `nil` iterator, so the
second sheet is never processed, and neither the save nor the close is attempted; and
on a workbook that opens from a path whose file name has four bytes, `match` processes
every sheet and then panics on the slice of the file name, again without save and
close. -/
theorem match_panics_after_open :
    rowsFailTarget.openErr = none ∧
      ExcelMatch.match_ exampleMatcher rowsFailTarget =
        { trace :=
            [Event.openFile "data/summary.xlsx".toList, Event.setActiveSheet 0,
              Event.insertCols "Sheet1" "J" 1, Event.setCellStr "Sheet1" "J1" "IB编码",
              Event.newStyle StyleKind.fill, Event.setCellStyle "Sheet1" "J1" "J1" 1,
              Event.newStyle StyleKind.border, Event.rows "Sheet1",
              Event.log Level.error "f.rows()"],
          outcome := Outcome.panicked } ∧
      exampleTarget.openErr = none ∧
      (ExcelMatch.match_ shortNameMatcher exampleTarget).outcome = Outcome.panicked ∧
      (ExcelMatch.match_ shortNameMatcher exampleTarget).trace =
        Event.openFile "data/a.xl".toList ::
          (ExcelMatch.matchSheets shortNameMatcher 0 exampleTarget.sheets).1 ∧
      Event.close ∉ (ExcelMatch.match_ shortNameMatcher exampleTarget).trace := by
  decide
